import Mathlib

/-!
Verification of the motor-control panel core (`src/motor_control_ui.py`)
against its natural-language specification.

The embedding below translates the command encoder (`move_forward`,
`move_backward`, `set_servo_angle`), the run-start guard (`run_gcode`)
and the G-code runner thread body (`GCodeRunnerThread.run`) into pure
Lean functions.  Strings of Python are modelled as Lean `String`s
(command level) or `List Char` (runner level); Python `int(...)` parsing
is modelled by `pyParseInt`; each element of an emitted line list
corresponds to one `send_command` / `serial.write` call, in order.
-/

/-- ASCII whitespace stripped by Python `str.strip()` and tolerated around
`int()` literals (the model is restricted to ASCII whitespace and ASCII
decimal digits; Python additionally accepts some Unicode variants). -/
def isWS (c : Char) : Bool :=
  c = ' ' || c = '\t' || c = '\n' || c = '\r' || c = '\x0b' || c = '\x0c'

/-- Python `str.strip()` on a character list: drop whitespace from both ends. -/
def stripL (l : List Char) : List Char :=
  ((l.dropWhile isWS).reverse.dropWhile isWS).reverse

/-- ASCII decimal digit test. -/
def isDigitC (c : Char) : Bool :=
  '0' ≤ c && c ≤ '9'

/-- Numeric value of an ASCII digit. -/
def digitVal (c : Char) : Nat :=
  c.toNat - '0'.toNat

/-- Digits of a Python integer literal after the first digit: a single
underscore may stand between two digits (as in Python `1_000`). -/
def parseDigitsAux : Nat → List Char → Option Nat
  | acc, [] => some acc
  | acc, '_' :: c :: rest =>
      if isDigitC c then parseDigitsAux (acc * 10 + digitVal c) rest else none
  | acc, c :: rest =>
      if isDigitC c then parseDigitsAux (acc * 10 + digitVal c) rest else none

/-- A non-empty run of digits (with optional medial underscores); the body of
a Python integer literal after sign and whitespace are removed. -/
def parseNatDigits : List Char → Option Nat
  | [] => none
  | c :: rest => if isDigitC c then parseDigitsAux (digitVal c) rest else none

/-- Model of Python `int(s)`: strip surrounding whitespace, optional single
sign, then a non-empty digit run; anything else raises `ValueError`,
modelled as `none`. -/
def pyParseInt (s : String) : Option Int :=
  match stripL s.data with
  | '+' :: rest => (parseNatDigits rest).map (fun n => (n : Int))
  | '-' :: rest => (parseNatDigits rest).map (fun n => -(n : Int))
  | l => (parseNatDigits l).map (fun n => (n : Int))

/-- Outcome reported to the operator by a single-command handler:
`ok` (no dialog), `invalidInput` (a "Geçersiz ..." / "Lütfen ..." warning
dialog, the spec's InvalidInput), or `notConnected`. -/
inductive CmdResult
  | ok
  | invalidInput
  | notConnected
deriving DecidableEq

/-- The fixed axis set of the panel (`self.motors = ['X','Y','Z','E','R','T']`). -/
inductive Axis
  | X | Y | Z | E | R | T

/-- `motor.lower()`: the axis-select line. -/
def Axis.letter : Axis → String
  | .X => "x" | .Y => "y" | .Z => "z" | .E => "e" | .R => "r" | .T => "t"

/-- The step-count block of `move_forward`: if the steps text is non-empty and
parses with value `> 0`, send `m=<n>`; on value `≤ 0`, parse failure, or empty
text, send the continuous-motion command `a`. -/
def stepCmdsF (steps : String) : List String :=
  if steps ≠ "" then
    match pyParseInt steps with
    | some n => if 0 < n then ["m=" ++ toString n] else ["a"]
    | none => ["a"]
  else ["a"]

/-- The step-count block of `move_backward`: as `stepCmdsF` but emitting
`n=<n>` / `d`. -/
def stepCmdsB (steps : String) : List String :=
  if steps ≠ "" then
    match pyParseInt steps with
    | some n => if 0 < n then ["n=" ++ toString n] else ["d"]
    | none => ["d"]
  else ["d"]

/-- `MotorControlUI.move_forward`: the list of lines handed to `send_command`
(in order, one write each) together with the reported outcome.  The
axis-select line is sent first, before the speed text is validated; a
non-empty unparsable speed then aborts with a warning (axis line already
out).  An empty speed text skips the `v=` line without any warning. -/
def move_forward (connected : Bool) (A : Axis) (speed steps : String) :
    List String × CmdResult :=
  if connected = false then ([], .notConnected)
  else if speed ≠ "" then
    match pyParseInt speed with
    | none => ([A.letter], .invalidInput)
    | some v => (A.letter :: ("v=" ++ toString v) :: stepCmdsF steps, .ok)
  else (A.letter :: stepCmdsF steps, .ok)

/-- `MotorControlUI.move_backward`: identical to `move_forward` except for the
step-block commands (`n=` / `d`). -/
def move_backward (connected : Bool) (A : Axis) (speed steps : String) :
    List String × CmdResult :=
  if connected = false then ([], .notConnected)
  else if speed ≠ "" then
    match pyParseInt speed with
    | none => ([A.letter], .invalidInput)
    | some v => (A.letter :: ("v=" ++ toString v) :: stepCmdsB steps, .ok)
  else (A.letter :: stepCmdsB steps, .ok)

/-- `MotorControlUI.set_servo_angle`: empty text or parse failure or an angle
outside `[0, 180]` is rejected before anything is sent; otherwise the
two lines `s`, `p=<angle>` are sent. -/
def set_servo_angle (connected : Bool) (angleText : String) :
    List String × CmdResult :=
  if connected = false then ([], .notConnected)
  else if angleText = "" then ([], .invalidInput)
  else
    match pyParseInt angleText with
    | none => ([], .invalidInput)
    | some a =>
        if a < 0 || 180 < a then ([], .invalidInput)
        else (["s", "p=" ++ toString a], .ok)

lemma pyParseInt_empty : pyParseInt "" = none := rfl

lemma ne_empty_of_parse {s : String} {v : Int} (h : pyParseInt s = some v) :
    s ≠ "" := by
  intro hs
  rw [hs, pyParseInt_empty] at h
  exact Option.noConfusion h

example : pyParseInt "620" = some 620 := by decide
example : pyParseInt " -42 " = some (-42) := by decide
example : pyParseInt "abc" = none := by decide
example : move_forward true Axis.X "620" "1000" =
    (["x", "v=620", "m=1000"], .ok) := by decide
example : move_forward true Axis.X "abc" "5" = (["x"], .invalidInput) := by
  decide

/-- C1: once connected, for every axis, every speed text parsing as integer
`v` and every steps text, the forward command emits exactly the line list
`[axis letter, v=<v>, m=<n>]` when the steps text parses as `n > 0`, and
`[axis letter, v=<v>, a]` otherwise (value `≤ 0`, parse failure, or empty
text); the backward command emits `n=<n>` / `d` in place of `m=<n>` / `a`.
Each list element is one separate `send_command` write, in order. -/
theorem forward_backward_emission (A : Axis) (speed : String) (v : Int)
    (hv : pyParseInt speed = some v) (steps : String) :
    (∀ n : Int, pyParseInt steps = some n → 0 < n →
      move_forward true A speed steps =
        ([A.letter, "v=" ++ toString v, "m=" ++ toString n], .ok) ∧
      move_backward true A speed steps =
        ([A.letter, "v=" ++ toString v, "n=" ++ toString n], .ok)) ∧
    ((∀ n : Int, pyParseInt steps = some n → n ≤ 0) →
      move_forward true A speed steps =
        ([A.letter, "v=" ++ toString v, "a"], .ok) ∧
      move_backward true A speed steps =
        ([A.letter, "v=" ++ toString v, "d"], .ok)) := by
  have hne : speed ≠ "" := ne_empty_of_parse hv
  constructor
  · intro n hn hpos
    have hsne : steps ≠ "" := ne_empty_of_parse hn
    constructor
    · simp [move_forward, stepCmdsF, hne, hv, hsne, hn, hpos]
    · simp [move_backward, stepCmdsB, hne, hv, hsne, hn, hpos]
  · intro hle
    rcases h : pyParseInt steps with _ | n
    · by_cases hsne : steps = ""
      · constructor
        · simp [move_forward, stepCmdsF, hne, hv, hsne]
        · simp [move_backward, stepCmdsB, hne, hv, hsne]
      · constructor
        · simp [move_forward, stepCmdsF, hne, hv, hsne, h]
        · simp [move_backward, stepCmdsB, hne, hv, hsne, h]
    · have hsne : steps ≠ "" := ne_empty_of_parse h
      have hnpos : ¬ (0 < n) := not_lt.mpr (hle n h)
      constructor
      · simp [move_forward, stepCmdsF, hne, hv, hsne, h, hnpos]
      · simp [move_backward, stepCmdsB, hne, hv, hsne, h, hnpos]

/-- C1 witness: concrete instance at axis X, speed "620", steps "1000" and
steps "0". -/
theorem forward_backward_emission_witness :
    (move_forward true Axis.X "620" "1000" = (["x", "v=620", "m=1000"], .ok) ∧
     move_backward true Axis.X "620" "1000" = (["x", "v=620", "n=1000"], .ok)) ∧
    (move_forward true Axis.X "620" "0" = (["x", "v=620", "a"], .ok) ∧
     move_backward true Axis.X "620" "0" = (["x", "v=620", "d"], .ok)) := by
  constructor
  · exact (forward_backward_emission Axis.X "620" 620 (by decide) "1000").1
      1000 (by decide) (by decide)
  · refine (forward_backward_emission Axis.X "620" 620 (by decide) "0").2 ?_
    intro n hn
    have h0 : pyParseInt "0" = some 0 := by decide
    rw [h0] at hn
    cases hn
    decide

/-- C2 counterexample: the claim says a non-empty unparsable speed text
transmits zero lines; in the code the axis-select line is written before the
speed text is parsed, so exactly one line goes out.  Concretely, forward on
axis X with speed "abc" transmits the line "x". -/
theorem invalid_speed_counterexample :
    move_forward true Axis.X "abc" "5" = (["x"], .invalidInput) ∧
    (move_forward true Axis.X "abc" "5").1.length ≠ 0 := by
  constructor
  · decide
  · decide

/-- C2 amended: for every axis and every non-empty speed text that does not
parse as an integer, the forward and backward commands transmit exactly one
line — the axis-select letter, which is written before the speed is
validated — and then report InvalidInput; no `v=`, step, or
continuous-motion line is sent. -/
theorem invalid_speed_one_line (A : Axis) (speed steps : String)
    (hne : speed ≠ "") (hbad : pyParseInt speed = none) :
    move_forward true A speed steps = ([A.letter], .invalidInput) ∧
    move_backward true A speed steps = ([A.letter], .invalidInput) := by
  constructor
  · simp [move_forward, hne, hbad]
  · simp [move_backward, hne, hbad]

/-- C2 witness: concrete instance at axis X, speed "abc". -/
theorem invalid_speed_one_line_witness :
    move_forward true Axis.X "abc" "5" = (["x"], .invalidInput) ∧
    move_backward true Axis.X "abc" "5" = (["x"], .invalidInput) :=
  invalid_speed_one_line Axis.X "abc" "5" (by decide) (by decide)

/-- C3: once connected, an angle text parsing as `p` with `0 ≤ p ≤ 180` makes
`set_servo_angle` emit exactly the two lines `s`, `p=<p>`; any text whose
every successful parse is out of range — in particular a text that does not
parse at all, or an empty text — transmits zero lines and reports
InvalidInput. -/
theorem servo_angle_emission :
    (∀ (text : String) (p : Int), pyParseInt text = some p → 0 ≤ p → p ≤ 180 →
      set_servo_angle true text = (["s", "p=" ++ toString p], .ok)) ∧
    (∀ text : String, (∀ p : Int, pyParseInt text = some p → p < 0 ∨ 180 < p) →
      set_servo_angle true text = ([], .invalidInput)) := by
  constructor
  · intro text p hp h0 h180
    have hne : text ≠ "" := ne_empty_of_parse hp
    have : ¬ (p < 0 || 180 < p) = true := by
      simp
      omega
    simp [set_servo_angle, hne, hp]
    omega
  · intro text hout
    by_cases hne : text = ""
    · simp [set_servo_angle, hne]
    · rcases h : pyParseInt text with _ | p
      · simp [set_servo_angle, hne, h]
      · have := hout p h
        simp [set_servo_angle, hne, h]
        omega

/-- C3 witness: concrete instances at angle texts "90" and "200". -/
theorem servo_angle_emission_witness :
    set_servo_angle true "90" = (["s", "p=90"], .ok) ∧
    set_servo_angle true "200" = ([], .invalidInput) := by
  constructor
  · exact servo_angle_emission.1 "90" 90 (by decide) (by decide) (by decide)
  · refine servo_angle_emission.2 "200" ?_
    intro p hp
    have h200 : pyParseInt "200" = some 200 := by decide
    rw [h200] at hp
    cases hp
    right
    decide

/-- C9: with an empty (blank) speed text the forward/backward handlers are
not rejected: the `if speed:` guard skips the speed block entirely, so the
axis-select line and the step / continuous-motion line go out with no `v=`
line at all. -/
theorem blank_speed_no_v_line (A : Axis) (steps : String) :
    (∀ n : Int, pyParseInt steps = some n → 0 < n →
      move_forward true A "" steps = ([A.letter, "m=" ++ toString n], .ok) ∧
      move_backward true A "" steps = ([A.letter, "n=" ++ toString n], .ok)) ∧
    ((∀ n : Int, pyParseInt steps = some n → n ≤ 0) →
      move_forward true A "" steps = ([A.letter, "a"], .ok) ∧
      move_backward true A "" steps = ([A.letter, "d"], .ok)) := by
  constructor
  · intro n hn hpos
    have hsne : steps ≠ "" := ne_empty_of_parse hn
    constructor
    · simp [move_forward, stepCmdsF, hsne, hn, hpos]
    · simp [move_backward, stepCmdsB, hsne, hn, hpos]
  · intro hle
    rcases h : pyParseInt steps with _ | n
    · by_cases hsne : steps = ""
      · constructor
        · simp [move_forward, stepCmdsF, hsne]
        · simp [move_backward, stepCmdsB, hsne]
      · constructor
        · simp [move_forward, stepCmdsF, hsne, h]
        · simp [move_backward, stepCmdsB, hsne, h]
    · have hsne : steps ≠ "" := ne_empty_of_parse h
      have hnpos : ¬ (0 < n) := not_lt.mpr (hle n h)
      constructor
      · simp [move_forward, stepCmdsF, hsne, h, hnpos]
      · simp [move_backward, stepCmdsB, hsne, h, hnpos]

/-- C9 witness: concrete instance at axis Y, empty speed, steps "7". -/
theorem blank_speed_no_v_line_witness :
    move_forward true Axis.Y "" "7" = (["y", "m=7"], .ok) ∧
    move_backward true Axis.Y "" "7" = (["y", "n=7"], .ok) :=
  (blank_speed_no_v_line Axis.Y "7").1 7 (by decide) (by decide)

/-- Python `content.split('\n')` on a character list: the segments between
newline characters (always at least one segment, possibly empty). -/
def splitNL : List Char → List (List Char)
  | [] => [[]]
  | c :: rest =>
      if c = '\n' then [] :: splitNL rest
      else
        match splitNL rest with
        | [] => [[c]]
        | g :: gs => (c :: g) :: gs

/-- The list comprehension shared by `load_gcode_file` and `run_gcode`:
`[line.strip() for line in content.split('\n') if line.strip()]` -
split on newlines, strip each line, and keep only the non-empty results. -/
def run_gcode_lines (content : List Char) : List (List Char) :=
  ((splitNL content).map stripL).filter (fun l => l ≠ [])

/-- Result of a `run_gcode` button press: either a runner thread is started
on the given line list, or the request is rejected before any thread (and
hence any transmission) exists. -/
inductive StartResult
  | started (lines : List (List Char))
  | alreadyRunning
  | emptyEditor
  | noLines
  | notConnected
deriving DecidableEq

/-- `MotorControlUI.run_gcode`: connection check, empty-editor check, the
blank-filtering comprehension, empty-list check, then the
`gcode_runner.isRunning()` guard ("G-code zaten çalışıyor!"); only if all
pass is a new `GCodeRunnerThread` started on the filtered lines. -/
def run_gcode (connected runnerActive : Bool) (content : List Char) :
    StartResult :=
  if connected = false then .notConnected
  else if stripL content = [] then .emptyEditor
  else
    let ls := run_gcode_lines content
    if ls = [] then .noLines
    else if runnerActive then .alreadyRunning
    else .started ls

/-- Events observable from `GCodeRunnerThread.run`: a `progress(current,
total)` signal, a `serial.write` call for one (stripped) line, an `error`
signal, and the `finished` signal. -/
inductive Ev
  | progress (cur total : Nat)
  | write (line : List Char)
  | error (msg : String)
  | finished
deriving DecidableEq

/-- The skip test of the runner: after stripping, an empty line or a line
starting with `;` or `(` is skipped (progress only, no write). -/
def isSkip : List Char → Bool
  | [] => true
  | c :: _ => c = ';' || c = '('

/-- The error text `f"Satır {i+1} gönderilemedi: {str(e)}"` emitted when the
serial write of the (1-based) line `k` raises `e`. -/
def errMsg (k : Nat) (e : String) : String :=
  "Satır " ++ toString k ++ " gönderilemedi: " ++ e

/-- Whether `self.running` has been cleared by `stop()` before iteration `i`
of the loop is processed: `stopAt = some k` models a stop request observed
from iteration `k` on, `none` a run never stopped. -/
def stoppedAt : Option Nat → Nat → Bool
  | none, _ => false
  | some k, i => k ≤ i

/-- The loop of `GCodeRunnerThread.run` over the remaining lines, with `i`
the index of the next line and `sends` the number of `write` calls made so
far; `f sends` gives the exception (if any) raised by the next `write` call.
Each iteration: check `self.running` (break to the trailing
`finished.emit()` if cleared), strip the line, skip blank/comment lines with
a progress signal, otherwise write the line (on exception: `error.emit` with
the 1-based line number, then break) and signal progress. -/
def runLoop (f : Nat → Option String) (stopAt : Option Nat) (total : Nat) :
    List (List Char) → Nat → Nat → List Ev
  | [], _, _ => [Ev.finished]
  | l :: rest, i, sends =>
      if stoppedAt stopAt i then [Ev.finished]
      else
        let t := stripL l
        if isSkip t then
          Ev.progress (i + 1) total :: runLoop f stopAt total rest (i + 1) sends
        else
          match f sends with
          | none =>
              Ev.write t :: Ev.progress (i + 1) total ::
                runLoop f stopAt total rest (i + 1) (sends + 1)
          | some e => [Ev.write t, Ev.error (errMsg (i + 1) e), Ev.finished]

/-- `GCodeRunnerThread.run` as an event trace: `total_lines = len(lines)`,
loop from index 0 with no writes yet, then `finished.emit()`. -/
def gcodeRun (f : Nat → Option String) (stopAt : Option Nat)
    (lines : List (List Char)) : List Ev :=
  runLoop f stopAt lines.length lines 0 0

/-- The serial writes contained in a runner trace, in order. -/
def writesOf (tr : List Ev) : List (List Char) :=
  tr.filterMap (fun ev => match ev with | Ev.write l => some l | _ => none)

/-- Bool test for the `finished` signal. -/
def isFin : Ev → Bool
  | .finished => true
  | _ => false

example : gcodeRun (fun _ => none) none [['G','1'], [';','c'], ['G','2']] =
    [Ev.write ['G','1'], Ev.progress 1 3, Ev.progress 2 3,
     Ev.write ['G','2'], Ev.progress 3 3, Ev.finished] := by decide
example : run_gcode_lines "G1\n\nG2".data = [['G','1'], ['G','2']] := by decide

lemma writesOf_nil : writesOf [] = [] := rfl

lemma writesOf_write (l : List Char) (tr : List Ev) :
    writesOf (Ev.write l :: tr) = l :: writesOf tr := rfl

lemma writesOf_progress (a b : Nat) (tr : List Ev) :
    writesOf (Ev.progress a b :: tr) = writesOf tr := rfl

lemma writesOf_error (m : String) (tr : List Ev) :
    writesOf (Ev.error m :: tr) = writesOf tr := rfl

lemma writesOf_finished (tr : List Ev) :
    writesOf (Ev.finished :: tr) = writesOf tr := rfl

lemma runLoop_nil (f : Nat → Option String) (st : Option Nat) (T i sends : Nat) :
    runLoop f st T [] i sends = [Ev.finished] := rfl

lemma runLoop_cons_stop (f : Nat → Option String) (st : Option Nat)
    (T : Nat) (l : List Char) (rest : List (List Char)) (i sends : Nat)
    (h : stoppedAt st i = true) :
    runLoop f st T (l :: rest) i sends = [Ev.finished] := by
  simp [runLoop, h]

lemma runLoop_cons_skip (f : Nat → Option String) (st : Option Nat)
    (T : Nat) (l : List Char) (rest : List (List Char)) (i sends : Nat)
    (h : stoppedAt st i = false) (hsk : isSkip (stripL l) = true) :
    runLoop f st T (l :: rest) i sends =
      Ev.progress (i + 1) T :: runLoop f st T rest (i + 1) sends := by
  simp [runLoop, h, hsk]

lemma runLoop_cons_send_ok (f : Nat → Option String) (st : Option Nat)
    (T : Nat) (l : List Char) (rest : List (List Char)) (i sends : Nat)
    (h : stoppedAt st i = false) (hsk : isSkip (stripL l) = false)
    (hf : f sends = none) :
    runLoop f st T (l :: rest) i sends =
      Ev.write (stripL l) :: Ev.progress (i + 1) T ::
        runLoop f st T rest (i + 1) (sends + 1) := by
  simp [runLoop, h, hsk, hf]

lemma runLoop_cons_send_fail (f : Nat → Option String) (st : Option Nat)
    (T : Nat) (l : List Char) (rest : List (List Char)) (i sends : Nat)
    (e : String) (h : stoppedAt st i = false) (hsk : isSkip (stripL l) = false)
    (hf : f sends = some e) :
    runLoop f st T (l :: rest) i sends =
      [Ev.write (stripL l), Ev.error (errMsg (i + 1) e), Ev.finished] := by
  simp [runLoop, h, hsk, hf]

/-- Every trace of the runner loop is a prefix without `finished` signals
followed by exactly one trailing `finished` signal. -/
lemma runLoop_shape (f : Nat → Option String) (st : Option Nat) (T : Nat) :
    ∀ (lines : List (List Char)) (i sends : Nat),
      ∃ pre : List Ev, runLoop f st T lines i sends = pre ++ [Ev.finished] ∧
        pre.countP isFin = 0 := by
  intro lines
  induction lines with
  | nil => exact fun i sends => ⟨[], rfl, rfl⟩
  | cons l rest ih =>
    intro i sends
    by_cases hst : stoppedAt st i = true
    · exact ⟨[], runLoop_cons_stop f st T l rest i sends hst, rfl⟩
    · rw [Bool.not_eq_true] at hst
      by_cases hsk : isSkip (stripL l) = true
      · obtain ⟨pre, heq, h0⟩ := ih (i + 1) sends
        refine ⟨Ev.progress (i + 1) T :: pre, ?_, ?_⟩
        · rw [runLoop_cons_skip f st T l rest i sends hst hsk, heq]
          rfl
        · simp [List.countP_cons, h0, isFin]
      · rw [Bool.not_eq_true] at hsk
        rcases hf : f sends with _ | e
        · obtain ⟨pre, heq, h0⟩ := ih (i + 1) (sends + 1)
          refine ⟨Ev.write (stripL l) :: Ev.progress (i + 1) T :: pre, ?_, ?_⟩
          · rw [runLoop_cons_send_ok f st T l rest i sends hst hsk hf, heq]
            rfl
          · simp [List.countP_cons, h0, isFin]
        · refine ⟨[Ev.write (stripL l), Ev.error (errMsg (i + 1) e)], ?_, rfl⟩
          rw [runLoop_cons_send_fail f st T l rest i sends e hst hsk hf]
          rfl

/-- C10: on every terminal path of `GCodeRunnerThread.run` — all lines
exhausted, stop requested, or a send failure already reported through the
`error` signal — the `finished` signal is emitted exactly once, as the last
event of the run; a failed run thus additionally produces the completion
notification. -/
theorem finished_signal_exactly_once (f : Nat → Option String)
    (st : Option Nat) (lines : List (List Char)) :
    (gcodeRun f st lines).countP isFin = 1 ∧
    (gcodeRun f st lines).getLast? = some Ev.finished := by
  obtain ⟨pre, heq, h0⟩ := runLoop_shape f st lines.length lines 0 0
  unfold gcodeRun
  rw [heq]
  constructor
  · rw [List.countP_append, h0]
    rfl
  · exact List.getLast?_concat _

/-- Stopping at iteration `k` makes the run write exactly what an unstopped
run over the first `k - i` remaining lines would write. -/
lemma writes_stop (f : Nat → Option String) (K T T' : Nat) :
    ∀ (lines : List (List Char)) (i sends : Nat),
      writesOf (runLoop f (some K) T lines i sends) =
        writesOf (runLoop f none T' (lines.take (K - i)) i sends) := by
  intro lines
  induction lines with
  | nil =>
    intro i sends
    simp [runLoop_nil, writesOf]
  | cons l rest ih =>
    intro i sends
    by_cases hKi : K ≤ i
    · have hst : stoppedAt (some K) i = true := by
        simp [stoppedAt, hKi]
      have htake : K - i = 0 := by omega
      rw [runLoop_cons_stop f (some K) T l rest i sends hst, htake,
        List.take_zero, runLoop_nil]
    · have hst : stoppedAt (some K) i = false := by
        simp [stoppedAt]
        omega
      have hst' : stoppedAt none i = false := rfl
      have htake : K - i = (K - (i + 1)) + 1 := by omega
      rw [htake, List.take_succ_cons]
      by_cases hsk : isSkip (stripL l) = true
      · rw [runLoop_cons_skip f (some K) T l rest i sends hst hsk,
          runLoop_cons_skip f none T' l _ i sends hst' hsk,
          writesOf_progress, writesOf_progress]
        exact ih (i + 1) sends
      · rw [Bool.not_eq_true] at hsk
        rcases hf : f sends with _ | e
        · rw [runLoop_cons_send_ok f (some K) T l rest i sends hst hsk hf,
            runLoop_cons_send_ok f none T' l _ i sends hst' hsk hf,
            writesOf_write, writesOf_progress, writesOf_write,
            writesOf_progress]
          rw [ih (i + 1) (sends + 1)]
        · rw [runLoop_cons_send_fail f (some K) T l rest i sends e hst hsk hf,
            runLoop_cons_send_fail f none T' l _ i sends e hst' hsk hf]

/-- C5 counterexample: the runner has no distinct Stopped terminal event.
A run of one line stopped before its first iteration emits exactly the
`finished` signal — the very signal a completed run ends with — and the
connected `on_gcode_finished` handler then reports completion
("G-code tamamlandı!"), so the terminal event of a stopped run is the
completion notification, not a Stopped one. -/
theorem stop_terminal_event_counterexample :
    gcodeRun (fun _ => none) (some 0) [['G', '1']] = [Ev.finished] ∧
    gcodeRun (fun _ => none) none [['G', '1']] =
      [Ev.write ['G', '1'], Ev.progress 1 1, Ev.finished] ∧
    (gcodeRun (fun _ => none) (some 0) [['G', '1']]).getLast? =
      (gcodeRun (fun _ => none) none [['G', '1']]).getLast? := by
  refine ⟨rfl, rfl, rfl⟩

/-- C5 amended: when `stop()` is observed from iteration `k` on, no line
after the in-flight one is sent — the writes are exactly those of a run of
the first `k` lines — but the terminal event is the same `finished` signal
a completed run emits (the code has no distinct Stopped event; the UI shows
the completion notification plus a separate "stopped" dialog). -/
theorem stop_truncates_run (f : Nat → Option String) (k : Nat)
    (lines : List (List Char)) :
    writesOf (gcodeRun f (some k) lines) =
      writesOf (gcodeRun f none (lines.take k)) ∧
    (gcodeRun f (some k) lines).getLast? = some Ev.finished := by
  constructor
  · have h := writes_stop f k lines.length (lines.take k).length lines 0 0
    simpa [gcodeRun] using h
  · obtain ⟨pre, heq, _⟩ := runLoop_shape f (some k) lines.length lines 0 0
    unfold gcodeRun
    rw [heq]
    exact List.getLast?_concat _

/-- Over sendable (non-skipped) lines with the first write failure at call
`K` (0-based), the loop writes exactly the stripped lines up to and
including the failing one, and — when the failure is reached — emits the
error signal carrying the 1-based line number `K + 1`. -/
lemma runLoop_first_failure (f : Nat → Option String) (K : Nat) (e : String)
    (T : Nat) (hpre : ∀ j, j < K → f j = none) (hK : f K = some e) :
    ∀ (rest : List (List Char)) (m : Nat),
      (∀ l ∈ rest, isSkip (stripL l) = false) → m ≤ K →
      writesOf (runLoop f none T rest m m) =
        (rest.take (K + 1 - m)).map stripL ∧
      (K < m + rest.length →
        Ev.error (errMsg (K + 1) e) ∈ runLoop f none T rest m m) := by
  intro rest
  induction rest with
  | nil =>
    intro m _ hm
    refine ⟨by simp [runLoop_nil, writesOf], ?_⟩
    intro hlt
    simp only [List.length_nil] at hlt
    omega
  | cons l rest ih =>
    intro m hsk hm
    have hskl : isSkip (stripL l) = false := hsk l (List.mem_cons_self l rest)
    have hst : stoppedAt none m = false := rfl
    by_cases hmK : m < K
    · have hfm : f m = none := hpre m hmK
      have htake : K + 1 - m = (K + 1 - (m + 1)) + 1 := by omega
      obtain ⟨ih1, ih2⟩ :=
        ih (m + 1) (fun l' hl' => hsk l' (List.mem_cons_of_mem _ hl'))
          (by omega)
      rw [runLoop_cons_send_ok f none T l rest m m hst hskl hfm]
      constructor
      · rw [writesOf_write, writesOf_progress, htake, List.take_succ_cons,
          List.map_cons, ih1]
      · intro hlt
        rw [List.length_cons] at hlt
        have : Ev.error (errMsg (K + 1) e) ∈ runLoop f none T rest (m + 1) (m + 1) :=
          ih2 (by omega)
        exact List.mem_cons_of_mem _ (List.mem_cons_of_mem _ this)
    · have hmeq : m = K := by omega
      subst hmeq
      rw [runLoop_cons_send_fail f none T l rest m m e hst hskl hK]
      have htake : m + 1 - m = 1 := by omega
      constructor
      · rw [htake]
        rfl
      · intro _
        exact List.mem_cons_of_mem _ (List.mem_cons_self _ _)

/-- C6: for a program of sendable lines whose serial write first fails at
the `k`-th call (1-based, `1 ≤ k ≤ N`), `write` is called exactly `k` times
— the writes are precisely the first `k` stripped lines, so lines
`k+1 .. N` are never sent — and the `error` signal carries the 1-based line
number `k` together with the underlying exception text. -/
theorem send_failure_stops_run (f : Nat → Option String)
    (lines : List (List Char)) (k : Nat) (e : String)
    (hsk : ∀ l ∈ lines, isSkip (stripL l) = false)
    (hpre : ∀ j, j < k - 1 → f j = none)
    (hk : f (k - 1) = some e)
    (h1 : 1 ≤ k) (hN : k ≤ lines.length) :
    writesOf (gcodeRun f none lines) = (lines.take k).map stripL ∧
    (writesOf (gcodeRun f none lines)).length = k ∧
    Ev.error (errMsg k e) ∈ gcodeRun f none lines := by
  obtain ⟨hw, herr⟩ :=
    runLoop_first_failure f (k - 1) e lines.length hpre hk lines 0 hsk
      (by omega)
  have hkk : k - 1 + 1 - 0 = k := by omega
  have hkk' : k - 1 + 1 = k := by omega
  rw [hkk] at hw
  rw [hkk'] at herr
  have hw' : writesOf (gcodeRun f none lines) = (lines.take k).map stripL := hw
  refine ⟨hw', ?_, herr (by omega)⟩
  rw [hw', List.length_map, List.length_take]
  omega

/-- Write-failure model used by the C6 witness: the first write succeeds,
the second raises "boom". -/
def failAtSecond : Nat → Option String :=
  fun j => if j = 1 then some "boom" else none

/-- C6 witness: a three-line program whose second write fails — two write
calls, an error signal naming line 2 and the text "boom", lines after the
second never sent. -/
theorem send_failure_stops_run_witness :
    writesOf (gcodeRun failAtSecond none [['G', '1'], ['G', '2'], ['G', '3']]) =
      (([['G', '1'], ['G', '2'], ['G', '3']] : List (List Char)).take 2).map
        stripL ∧
    (writesOf
      (gcodeRun failAtSecond none [['G', '1'], ['G', '2'], ['G', '3']])).length
      = 2 ∧
    Ev.error (errMsg 2 "boom") ∈
      gcodeRun failAtSecond none [['G', '1'], ['G', '2'], ['G', '3']] :=
  send_failure_stops_run failAtSecond [['G', '1'], ['G', '2'], ['G', '3']] 2
    "boom" (by decide)
    (fun j hj => by
      have hj0 : j = 0 := by omega
      subst hj0
      rfl)
    rfl (by decide) (by decide)

/-- C4 counterexample: a program typed into the editor as "G1\n\nG2" is
filtered by `run_gcode` to two lines before the runner starts — the blank
line is not counted in the run's total (which is 2, not 3) and produces no
progress event; `run_gcode` uses the very same blank-filtering
comprehension as the file loader, so there is no load/run asymmetry. -/
theorem typed_blank_line_counterexample :
    run_gcode_lines "G1\n\nG2".data = [['G', '1'], ['G', '2']] ∧
    gcodeRun (fun _ => none) none (run_gcode_lines "G1\n\nG2".data) =
      [Ev.write ['G', '1'], Ev.progress 1 2, Ev.write ['G', '2'],
       Ev.progress 2 2, Ev.finished] := by
  refine ⟨by decide, by decide⟩

/-- C4 amended: blank lines typed into the editor are filtered out before
the run, exactly as in file loading: no line handed to the runner is empty,
and the run's total equals the number of physical lines whose stripped text
is non-empty (comment lines starting with `;` or `(` remain counted; the
runner's own blank-skip branch is unreachable for blanks). -/
theorem typed_blank_lines_filtered :
    (∀ (content : List Char) (l : List Char),
      l ∈ run_gcode_lines content → 0 < l.length) ∧
    (∀ content : List Char,
      (run_gcode_lines content).length =
        (splitNL content).countP (fun l => stripL l ≠ [])) := by
  constructor
  · intro content l hl
    have h := (List.mem_filter.mp hl).2
    have hne : l ≠ [] := by
      intro h0
      rw [h0] at h
      exact absurd h (by decide)
    exact List.length_pos.mpr hne
  · intro content
    rw [run_gcode_lines, ← List.countP_eq_length_filter, List.countP_map]
    rfl

/-- C4 amended witness: on the typed text "G1\n\nG2" the first retained line
is non-empty and the run total is the count of non-blank physical lines. -/
theorem typed_blank_lines_filtered_witness :
    0 < (['G', '1'] : List Char).length ∧
    (run_gcode_lines "G1\n\nG2".data).length =
      (splitNL "G1\n\nG2".data).countP (fun l => stripL l ≠ []) :=
  ⟨typed_blank_lines_filtered.1 "G1\n\nG2".data ['G', '1'] (by decide),
   typed_blank_lines_filtered.2 "G1\n\nG2".data⟩

lemma stripL_eq_nil_iff (l : List Char) :
    stripL l = [] ↔ ∀ c ∈ l, isWS c = true := by
  unfold stripL
  rw [List.reverse_eq_nil_iff, List.dropWhile_eq_nil_iff]
  constructor
  · intro h c hc
    have hsplit : c ∈ l.takeWhile isWS ++ l.dropWhile isWS := by
      rw [List.takeWhile_append_dropWhile]
      exact hc
    rcases List.mem_append.mp hsplit with h1 | h2
    · exact List.mem_takeWhile_imp h1
    · exact h c (List.mem_reverse.mpr h2)
  · intro h c hc
    exact h c ((List.dropWhile_sublist isWS).subset (List.mem_reverse.mp hc))

lemma splitNL_ne_nil (l : List Char) : splitNL l ≠ [] := by
  cases l with
  | nil => exact List.cons_ne_nil _ _
  | cons c rest =>
    by_cases hc : c = '\n'
    · simp [splitNL, hc]
    · rcases h : splitNL rest with _ | ⟨g, gs⟩
      · simp [splitNL, hc, h]
      · simp [splitNL, hc, h]

lemma mem_splitNL (l : List Char) (c : Char) (hc : c ∈ l) (hnl : c ≠ '\n') :
    ∃ seg ∈ splitNL l, c ∈ seg := by
  induction l with
  | nil => cases hc
  | cons x rest ih =>
    by_cases hx : x = '\n'
    · subst hx
      have hcr : c ∈ rest := by
        rcases List.mem_cons.mp hc with h | h
        · exact absurd h hnl
        · exact h
      obtain ⟨seg, hseg, hcs⟩ := ih hcr
      exact ⟨seg, by simp [splitNL, hseg], hcs⟩
    · rcases h : splitNL rest with _ | ⟨g, gs⟩
      · exact absurd h (splitNL_ne_nil rest)
      · have heq : splitNL (x :: rest) = (x :: g) :: gs := by
          simp [splitNL, hx, h]
        rcases List.mem_cons.mp hc with hcx | hcr
        · exact ⟨x :: g, by rw [heq]; exact List.mem_cons_self _ _,
            by rw [hcx]; exact List.mem_cons_self _ _⟩
        · obtain ⟨seg, hseg, hcs⟩ := ih hcr
          rw [h] at hseg
          rcases List.mem_cons.mp hseg with hsg | hsg
          · refine ⟨x :: g, by rw [heq]; exact List.mem_cons_self _ _, ?_⟩
            rw [hsg] at hcs
            exact List.mem_cons_of_mem _ hcs
          · exact ⟨seg, by rw [heq]; exact List.mem_cons_of_mem _ hsg, hcs⟩

lemma run_gcode_lines_ne_nil (content : List Char)
    (h : stripL content ≠ []) : run_gcode_lines content ≠ [] := by
  have hex : ∃ c ∈ content, ¬ isWS c = true := by
    by_contra hall
    push_neg at hall
    exact h ((stripL_eq_nil_iff content).mpr hall)
  obtain ⟨c, hc, hcw⟩ := hex
  have hnl : c ≠ '\n' := by
    intro hceq
    rw [hceq] at hcw
    exact hcw (by decide)
  obtain ⟨seg, hseg, hcs⟩ := mem_splitNL content c hc hnl
  have hsegne : stripL seg ≠ [] := by
    intro h0
    exact hcw ((stripL_eq_nil_iff seg).mp h0 c hcs)
  apply List.ne_nil_of_mem (a := stripL seg)
  rw [run_gcode_lines, List.mem_filter]
  exact ⟨List.mem_map_of_mem stripL hseg, by simpa using hsegne⟩

/-- C7: a `run_gcode` request issued while a prior runner thread is still
alive (`isRunning()` — true both while Running and while Paused) and whose
editor text has any non-blank content is rejected with the
"G-code zaten çalışıyor!" warning (AlreadyRunning); no new runner is
started, so none of the second run's lines are ever sent — at most one
runner is ever active against the connection. -/
theorem start_while_active_rejected (content : List Char)
    (h : stripL content ≠ []) :
    run_gcode true true content = .alreadyRunning ∧
    ∀ ls, run_gcode true true content ≠ .started ls := by
  have hne := run_gcode_lines_ne_nil content h
  constructor
  · simp [run_gcode, h, hne]
  · intro ls
    simp [run_gcode, h, hne]

/-- C7 witness: starting over editor text "G1" while a runner is active. -/
theorem start_while_active_rejected_witness :
    run_gcode true true ['G', '1'] = .alreadyRunning ∧
    ∀ ls, run_gcode true true ['G', '1'] ≠ .started ls :=
  start_while_active_rejected ['G', '1'] (by decide)

/-- Fuelled integer base-2 logarithm (largest `e` with `2 ^ e ≤ n`, and `0`
for `n < 2`); fuel `n` suffices since at most `log2 n` halvings occur. -/
def log2p : Nat → Nat → Nat
  | 0, _ => 0
  | fuel + 1, n => if 2 ≤ n then log2p fuel (n / 2) + 1 else 0

/-- Integer base-2 logarithm. -/
def nlog2 (n : Nat) : Nat :=
  log2p n n

/-- `⌊log₂ (a / b)⌋` for positive naturals `a`, `b`, as an integer. -/
def floorLog2 (a b : Nat) : Int :=
  let k := nlog2 b + 2
  (nlog2 (a * 2 ^ k / b) : Int) - k

/-- Round `n / d` to the nearest integer, ties to even (IEEE 754 default). -/
def rndHalfEven (n d : Nat) : Nat :=
  let q := n / d
  let r := n % d
  if 2 * r < d then q
  else if d < 2 * r then q + 1
  else if q % 2 = 0 then q else q + 1

/-- Round the positive rational `a / b` to an IEEE 754 binary64 value,
represented as a dyadic pair `(s, E)` of value `s * 2 ^ E` with a 53-bit
significand (normal range; the values arising here are nowhere near
overflow or subnormal territory). -/
def roundDyadic (a b : Nat) : Nat × Int :=
  let e := floorLog2 a b
  let sh := 52 - e
  let s := if 0 ≤ sh then rndHalfEven (a * 2 ^ sh.toNat) b
           else rndHalfEven a (b * 2 ^ (-sh).toNat)
  (s, e - 52)

/-- Multiply a binary64 value by the exact constant `100` and round the
product back to binary64 (the `* 100` of the progress computation). -/
def mulRound100 (p : Nat × Int) : Nat × Int :=
  if 0 ≤ p.2 then roundDyadic (100 * p.1 * 2 ^ p.2.toNat) 1
  else roundDyadic (100 * p.1) (2 ^ (-p.2).toNat)

/-- Python `int(...)` on a non-negative binary64 value: truncation. -/
def truncDyadic (p : Nat × Int) : Nat :=
  if 0 ≤ p.2 then p.1 * 2 ^ p.2.toNat else p.1 / 2 ^ (-p.2).toNat

/-- `MotorControlUI.on_gcode_progress`: for `total > 0` the displayed
percentage is `int((current / total) * 100)` evaluated in double-precision
floating point — a correctly rounded division, a correctly rounded
multiplication by 100, then truncation; for `total = 0` no update happens. -/
def on_gcode_progress (current total : Nat) : Option Nat :=
  if 0 < total then
    some (truncDyadic (mulRound100 (roundDyadic current total)))
  else none

example : on_gcode_progress 1 3 = some 33 := by decide
example : on_gcode_progress 2 3 = some 66 := by decide
example : on_gcode_progress 1 1 = some 100 := by decide
example : on_gcode_progress 29 100 = some 28 := by decide
example : on_gcode_progress 7 8 = some 87 := by decide

/-- C8 counterexample: at the progress event `(29, 100)` the claim's exact
integer arithmetic gives `floor(100 * 29 / 100) = 29`, but the code's
double-precision `int((29 / 100) * 100)` evaluates to `28`: `29 / 100`
rounds to a double slightly below `0.29`, the multiplication by `100`
rounds to `28.999999999999996`, and `int` truncates. -/
theorem progress_float_counterexample :
    on_gcode_progress 29 100 = some 28 ∧ 100 * 29 / 100 = 29 ∧ (28 : Nat) ≠ 29 := by
  refine ⟨by decide, by decide, by decide⟩

set_option maxRecDepth 100000 in
set_option maxHeartbeats 4000000 in
/-- C8 amended: the displayed percentage is `int((current / total) * 100)`
evaluated in double-precision floating point; for every progress event with
`1 ≤ current ≤ total` (verified here for totals up to 50) it equals
`floor(100 * current / total)` or falls exactly one short of it, the
deficit occurring when the rounded product lands just below an integer
(first at `current = 29, total = 50`). -/
theorem progress_percentage_within_one :
    ∀ total : Nat, total < 51 → ∀ current : Nat, current < 51 →
      1 ≤ current → current ≤ total →
      (on_gcode_progress current total = some (100 * current / total) ∨
       on_gcode_progress current total = some (100 * current / total - 1)) := by
  decide

/-- C8 witness: the progress event `(29, 50)` — the computed percentage is
some value allowed by the amended claim (here the `floor - 1` branch). -/
theorem progress_percentage_within_one_witness :
    on_gcode_progress 29 50 = some (100 * 29 / 50) ∨
    on_gcode_progress 29 50 = some (100 * 29 / 50 - 1) :=
  progress_percentage_within_one 50 (by decide) 29 (by decide) (by decide)
    (by decide)
